import Mathlib

/-
  Verification development for the Zabbix low-level discovery (LLD) rule
  processor, src/libs/zbxdbhigh/lld.c.

  Conventions of the shallow embedding:
  * The C result values SUCCEED / FAIL are modelled as the booleans
    true / false.
  * The external regular-expression engine (regexp_match_ex, from the
    zbxregexp library) is a parameter of type RegexpEng; its three
    outcomes ZBX_REGEXP_MATCH / ZBX_REGEXP_NO_MATCH / other are the
    constructors of RegexpResult.
  * The external expression evaluator (evaluate, from libzbxserver) and
    the tolerant double comparison (zbx_double_compare) are parameters.
  * A parsed JSON row view (struct zbx_json_parse over one object
    element) is modelled by JsonRowView: its top-level string pairs
    (consulted by zbx_json_pair_by_name / zbx_json_value_by_name_dyn)
    and a function giving the value extracted through a JSON path
    (zbx_json_path_open followed by zbx_json_value_dyn).  Modelled from
    the spec: the zbxjson library is an external collaborator.
  * C strings are Lean String, vectors are Lean List, in iteration
    order.
-/

/-- Outcome of the external regular-expression engine regexp_match_ex.
The constructor failed stands for any value other than ZBX_REGEXP_MATCH
and ZBX_REGEXP_NO_MATCH (the default branch of the switch in
filter_condition_match, e.g. a compile error). -/
inductive RegexpResult where
  | matched
  | noMatch
  | failed
deriving DecidableEq, Repr

/-- The external regexp engine: takes the resolved global-regexp set of
the condition, the value extracted for the macro, and the literal
pattern (condition->regexp), case-sensitive.  Modelled from the spec:
regexp.match(regexp_set, value, literal_pattern, case_sensitive). -/
def RegexpEng : Type := List String → String → String → RegexpResult

/-- Condition operator wire values CONDITION_OPERATOR_REGEXP and
CONDITION_OPERATOR_NOT_REGEXP. -/
inductive ConditionOperator where
  | regexp
  | notRegexp
deriving DecidableEq, Repr

/-- Filter evaluation modes, wire values CONDITION_EVAL_TYPE_AND_OR = 0,
AND = 1, OR = 2, EXPRESSION = 3. -/
inductive EvalType where
  | andOr
  | and
  | or
  | expr
deriving DecidableEq, Repr

/-- Item states ITEM_STATE_NORMAL = 0, ITEM_STATE_NOTSUPPORTED = 1. -/
inductive ItemState where
  | normal
  | notsupported
deriving DecidableEq, Repr

/-- One LLD filter condition (struct lld_condition_t): id, macro (field
renamed to macroName here), literal regexp operand, resolved
global-regexp set, operator. -/
structure lld_condition_t where
  id : Nat
  macroName : String
  regexp : String
  regexps : List String
  op : ConditionOperator
deriving DecidableEq, Repr

/-- The LLD filter (struct lld_filter_t). -/
structure lld_filter_t where
  conditions : List lld_condition_t
  expression : String
  evaltype : EvalType
deriving DecidableEq, Repr

/-- One macro-path table entry (struct zbx_lld_macro_path_t); the field
lld_macro is renamed to macroName here. -/
structure zbx_lld_macro_path_t where
  macroName : String
  path : String
deriving DecidableEq, Repr

/-- View of one parsed JSON row (struct zbx_json_parse over an object
element).  Modelled from the spec: the zbxjson library is external;
pairs models the top-level key/value pairs consulted by
zbx_json_pair_by_name and zbx_json_value_by_name_dyn, pathOpen models
zbx_json_path_open plus zbx_json_value_dyn (none when the path does not
open). -/
structure JsonRowView where
  pairs : List (String × String)
  pathOpen : String → Option String

/-- Search of the row's top-level pairs for a key equal to the macro
name (zbx_json_value_by_name_dyn / zbx_json_pair_by_name). -/
def lookupPair (ps : List (String × String)) (k : String) : Option String :=
  (ps.find? (fun p => p.1 == k)).map (fun p => p.2)

/-- zbx_vector_ptr_bsearch over the macro-path table with
lld_macro_paths_compare.  The loader reads the table ordered by
lld_macro (ORDER BY lld_macro) with unique keys, so binary search is
the unique association lookup. -/
def macroPathFind (t : List zbx_lld_macro_path_t) (m : String) :
    Option zbx_lld_macro_path_t :=
  t.find? (fun e => e.macroName == m)

/-- zbx_lld_macro_value_by_name from lld.c: if the macro has a
macro-path entry, open its JSON path against the row (returning the
extracted value, or a miss when the path does not open, with no
fallback); otherwise search the row's top-level pairs. -/
def zbx_lld_macro_value_by_name (jp_row : JsonRowView)
    (lld_macro_paths : List zbx_lld_macro_path_t) (m : String) :
    Option String :=
  match macroPathFind lld_macro_paths m with
  | some mp => jp_row.pathOpen mp.path
  | none => lookupPair jp_row.pairs m

/-- filter_condition_match from lld.c: resolve the condition's macro,
then map the regexp engine's outcome through the operator; a resolution
miss or an engine outcome other than match / no-match gives FAIL. -/
def filter_condition_match (eng : RegexpEng) (jp_row : JsonRowView)
    (lld_macro_paths : List zbx_lld_macro_path_t)
    (condition : lld_condition_t) : Bool :=
  match zbx_lld_macro_value_by_name jp_row lld_macro_paths condition.macroName with
  | some value =>
      match eng condition.regexps value condition.regexp with
      | RegexpResult.matched => condition.op == ConditionOperator.regexp
      | RegexpResult.noMatch => condition.op == ConditionOperator.notRegexp
      | RegexpResult.failed => false
  | none => false

/-- The loop of filter_evaluate_and_or: walk the (macro-grouped)
conditions once, OR-ing within a run of equal macros and AND-ing the
committed result when a new macro starts; ret starts as SUCCEED and
the last-seen macro as NULL. -/
def andOrLoop (mc : lld_condition_t → Bool) :
    List lld_condition_t → Option String → Bool → Bool
  | [], _, ret => ret
  | c :: rest, lastMacroName, ret =>
      if lastMacroName = some c.macroName then
        andOrLoop mc rest (some c.macroName) (ret || mc c)
      else if ret then
        andOrLoop mc rest (some c.macroName) (mc c)
      else
        false

/-- filter_evaluate_and_or from lld.c. -/
def filter_evaluate_and_or (eng : RegexpEng) (jp_row : JsonRowView)
    (lld_macro_paths : List zbx_lld_macro_path_t) (filter : lld_filter_t) : Bool :=
  andOrLoop (filter_condition_match eng jp_row lld_macro_paths)
    filter.conditions none true

/-- The loop of filter_evaluate_and: ret starts as SUCCEED, the loop
stops at the first condition that does not match. -/
def andLoop (mc : lld_condition_t → Bool) : List lld_condition_t → Bool → Bool
  | [], ret => ret
  | c :: rest, _ =>
      if mc c then andLoop mc rest (mc c) else mc c

/-- filter_evaluate_and from lld.c. -/
def filter_evaluate_and (eng : RegexpEng) (jp_row : JsonRowView)
    (lld_macro_paths : List zbx_lld_macro_path_t) (filter : lld_filter_t) : Bool :=
  andLoop (filter_condition_match eng jp_row lld_macro_paths) filter.conditions true

/-- The loop of filter_evaluate_or: ret starts as SUCCEED, the loop
stops at the first condition that matches. -/
def orLoop (mc : lld_condition_t → Bool) : List lld_condition_t → Bool → Bool
  | [], ret => ret
  | c :: rest, _ =>
      if mc c then mc c else orLoop mc rest (mc c)

/-- filter_evaluate_or from lld.c. -/
def filter_evaluate_or (eng : RegexpEng) (jp_row : JsonRowView)
    (lld_macro_paths : List zbx_lld_macro_path_t) (filter : lld_filter_t) : Bool :=
  orLoop (filter_condition_match eng jp_row lld_macro_paths) filter.conditions true

/-- The token of a condition id in a custom expression: an opening
brace, the decimal digits of the id, a closing brace (zbx_snprintf of
"\x7b" ZBX_FS_UI64 "\x7d"). -/
def idToken (id : Nat) : List Char :=
  Char.ofNat 123 :: (toString id).data ++ [Char.ofNat 125]

/-- The recursion of one strstr pass, driven by a character budget so
that it is structural (the budget never runs out when it starts at the
text's length, since every step consumes at least one character):
whenever tok starts at the current position the next tok.length
characters are overwritten by repl and the scan resumes after them,
otherwise the scan moves one character. -/
def substTokenFuel (tok repl : List Char) : Nat → List Char → List Char
  | _, [] => []
  | 0, l => l
  | fuel + 1, c :: rest =>
      if tok ≠ [] ∧ tok.isPrefixOf (c :: rest) then
        repl ++ substTokenFuel tok repl fuel (rest.drop (tok.length - 1))
      else
        c :: substTokenFuel tok repl fuel rest

/-- One strstr pass of filter_evaluate_expression: every occurrence of
tok in the text is overwritten in place by repl (first byte the digit,
the rest spaces), scanning left to right and advancing past each
replaced occurrence. -/
def substToken (tok repl : List Char) (l : List Char) : List Char :=
  substTokenFuel tok repl l.length l

/-- The replacement text for one condition: the digit 1 or 0 in place of
the token's opening brace, spaces over the remaining len - 1 bytes. -/
def tokenRepl (len : Nat) (matched : Bool) : List Char :=
  (if matched then '1' else '0') :: List.replicate (len - 1) ' '

/-- The condition loop of filter_evaluate_expression: for each
condition, compute its match, substitute its id token in the expression
text, and overwrite ret with the match; returns the final text and the
last value of ret (its initial value when there are no conditions). -/
def exprSubstLoop (mc : lld_condition_t → Bool) :
    List lld_condition_t → List Char → Bool → (List Char × Bool)
  | [], e, ret => (e, ret)
  | c :: rest, e, _ =>
      exprSubstLoop mc rest
        (substToken (idToken c.id) (tokenRepl (idToken c.id).length (mc c)) e)
        (mc c)

/-- filter_evaluate_expression from lld.c: substitute per-condition
results into the expression text, feed the result to the external
evaluator; on evaluator success the result is the tolerant non-zero
test of the numeric value, on evaluator error ret keeps the value left
by the condition loop. -/
def filter_evaluate_expression (evalF : List Char → Option ℚ)
    (dcomp : ℚ → ℚ → Bool) (eng : RegexpEng) (jp_row : JsonRowView)
    (lld_macro_paths : List zbx_lld_macro_path_t) (filter : lld_filter_t) : Bool :=
  let r := exprSubstLoop (filter_condition_match eng jp_row lld_macro_paths)
    filter.conditions filter.expression.data false
  match evalF r.1 with
  | some v => !(dcomp v 0)
  | none => r.2

/-- filter_evaluate from lld.c: dispatch on the filter's evaltype. -/
def filter_evaluate (evalF : List Char → Option ℚ) (dcomp : ℚ → ℚ → Bool)
    (eng : RegexpEng) (jp_row : JsonRowView)
    (lld_macro_paths : List zbx_lld_macro_path_t) (filter : lld_filter_t) : Bool :=
  match filter.evaltype with
  | EvalType.andOr => filter_evaluate_and_or eng jp_row lld_macro_paths filter
  | EvalType.and => filter_evaluate_and eng jp_row lld_macro_paths filter
  | EvalType.or => filter_evaluate_or eng jp_row lld_macro_paths filter
  | EvalType.expr => filter_evaluate_expression evalF dcomp eng jp_row lld_macro_paths filter

/-- One diagnostic line appended by lld_check_received_data_for_filter
to the shared info buffer: the macro named in the line, and the json
path quoted in it when the macro has a macro-path entry. -/
abbrev DiagEntry : Type := String × Option String

/-- lld_check_received_data_for_filter from lld.c: for every filter
condition, when the macro has a macro-path entry and the path does not
open on the row, or has no entry and no matching top-level pair, append
one "cannot accurately apply filter" line to the info buffer. -/
def lld_check_received_data_for_filter (filter : lld_filter_t)
    (jp_row : JsonRowView) (lld_macro_paths : List zbx_lld_macro_path_t) :
    List DiagEntry :=
  filter.conditions.foldl (fun info c =>
    match macroPathFind lld_macro_paths c.macroName with
    | some mp =>
        if (jp_row.pathOpen mp.path).isNone then
          info ++ [(mp.macroName, some mp.path)]
        else
          info
    | none =>
        if (lookupPair jp_row.pairs c.macroName).isNone then
          info ++ [(c.macroName, none)]
        else
          info) []

/-- A parsed JSON value.  Modelled from the spec: the zbxjson parser is
an external collaborator; only the shape distinctions the row iterator
makes are represented. -/
inductive Json where
  | jstr (s : String)
  | jnum (n : Int)
  | jbool (b : Bool)
  | jnull
  | jarr (elems : List Json)
  | jobj (pairs : List (String × Json))

/-- Whether a parsed element is a JSON object (zbx_json_brackets_open
succeeding on an object element; per the spec, non-object elements are
silently skipped). -/
def Json.isObj : Json → Bool
  | Json.jobj _ => true
  | _ => false

/-- One surviving row (struct zbx_lld_row_t): the element view, and the
item_links vector created empty by the iterator. -/
structure zbx_lld_row_t where
  jp_row : Json
  item_links : List Unit

/-- The two accepted payload shapes (zbx_json_open result starting with
a bracket, or zbx_json_brackets_by_name on the key "data"): a top-level
array yields its elements, a top-level object yields the elements of an
array stored under the key "data".  Modelled from the spec: an object
containing an array under the key data. -/
def jsonArrayOf : Json → Option (List Json)
  | Json.jarr elems => some elems
  | Json.jobj pairs =>
      match pairs.find? (fun p => p.1 == "data") with
      | some (_, Json.jarr elems) => some elems
      | _ => none
  | _ => none

/-- Failure of lld_rows_get.  Both failure messages of the source
("Value should be a JSON array." when the payload does not parse, and
"Cannot find the \"data\" array in the received JSON object." when no
accepted shape is found) are the PAYLOAD_NOT_ARRAY error kind of the
spec's error taxonomy. -/
inductive RowsError where
  | payloadNotArray
deriving DecidableEq, Repr

/-- The element loop of lld_rows_get: for each object element, append
its filter-coverage diagnostics to info, evaluate the filter, and on
PASS append a row whose item_links is empty; other elements are
skipped. -/
def lldRowsScan (evalF : List Char → Option ℚ) (dcomp : ℚ → ℚ → Bool)
    (eng : RegexpEng) (view : Json → JsonRowView) (filter : lld_filter_t)
    (lld_macro_paths : List zbx_lld_macro_path_t) :
    List Json → (List zbx_lld_row_t × List DiagEntry)
  | [] => ([], [])
  | e :: rest =>
      let tailRes := lldRowsScan evalF dcomp eng view filter lld_macro_paths rest
      if e.isObj then
        ((if filter_evaluate evalF dcomp eng (view e) lld_macro_paths filter then
            [⟨e, []⟩] else []) ++ tailRes.1,
         lld_check_received_data_for_filter filter (view e) lld_macro_paths ++ tailRes.2)
      else
        tailRes

/-- lld_rows_get from lld.c: the payload (none when zbx_json_open
fails) must be an array or an object with a "data" array, otherwise the
whole processing fails; the surviving rows and the shared info buffer
are accumulated over the elements.  The view parameter models taking
the zbx_json_parse view of one element. -/
def lld_rows_get (evalF : List Char → Option ℚ) (dcomp : ℚ → ℚ → Bool)
    (eng : RegexpEng) (view : Json → JsonRowView) (filter : lld_filter_t)
    (lld_macro_paths : List zbx_lld_macro_path_t) (value : Option Json) :
    Except RowsError (List zbx_lld_row_t × List DiagEntry) :=
  match value with
  | none => Except.error RowsError.payloadNotArray
  | some j =>
      match jsonArrayOf j with
      | none => Except.error RowsError.payloadNotArray
      | some elems =>
          Except.ok (lldRowsScan evalF dcomp eng view filter lld_macro_paths elems)

/-- Errors produced by the two loaders. -/
inductive LoadError where
  | invalidRuleId
  | unknownGlobalRegexp (name : String)
  | cannotProcessMacro (m : String)
deriving DecidableEq, Repr

/-- One row of the item_condition table as read by lld_filter_load. -/
structure CondRow where
  conditionid : Nat
  macroName : String
  value : String
  op : ConditionOperator
deriving DecidableEq, Repr

/-- The fetch loop of lld_filter_load: a value starting with the at
sign is a named global-regexp set reference resolved through the
configuration cache (an empty resolution fails the load), any other
value gets simple-macro substitution. -/
def loadConditions (getExpressions : String → List String)
    (substMacros : String → String) : List CondRow →
    Except LoadError (List lld_condition_t)
  | [] => Except.ok []
  | r :: rest =>
      match r.value.data with
      | '@' :: nm =>
          let name := String.mk nm
          if getExpressions name = [] then
            Except.error (LoadError.unknownGlobalRegexp name)
          else
            (loadConditions getExpressions substMacros rest).map
              (fun cs => ⟨r.conditionid, r.macroName, r.value, getExpressions name, r.op⟩ :: cs)
      | _ =>
          (loadConditions getExpressions substMacros rest).map
            (fun cs => ⟨r.conditionid, r.macroName, substMacros r.value, [], r.op⟩ :: cs)

/-- lld_filter_load from lld.c: the rule must exist in the
configuration cache, the conditions are loaded with regexp-set
resolution and macro substitution, and for evaltype AND_OR the list is
sorted by macro (lld_condition_compare_by_macro). -/
def lld_filter_load (itemFound : Bool) (getExpressions : String → List String)
    (substMacros : String → String) (evaltype : EvalType)
    (rows : List CondRow) : Except LoadError (List lld_condition_t) :=
  if itemFound then
    (loadConditions getExpressions substMacros rows).map (fun cs =>
      if evaltype = EvalType.andOr then
        cs.mergeSort (fun a b => a.macroName ≤ b.macroName)
      else
        cs)
  else
    Except.error LoadError.invalidRuleId

/-- lld_macro_paths_get from lld.c: read the (lld_macro, path) rows in
ascending lld_macro order, validating each path (zbx_json_path_check,
modelled by the external predicate pathCheck); the first invalid path
fails the whole load. -/
def lld_macro_paths_get (pathCheck : String → Bool) :
    List (String × String) → Except LoadError (List zbx_lld_macro_path_t)
  | [] => Except.ok []
  | (m, p) :: rest =>
      if pathCheck p then
        (lld_macro_paths_get pathCheck rest).map (fun t => ⟨m, p⟩ :: t)
      else
        Except.error (LoadError.cannotProcessMacro m)

/-- The rule's persistent row as fetched by lld_process_discovery_rule
(select hostid, key_, state, evaltype, formula, error, lifetime from
items). -/
structure RuleRow where
  hostid : Nat
  key : String
  state : ItemState
  evaltype : EvalType
  formula : String
  dbError : String
  lifetime : String
deriving DecidableEq, Repr

/-- The external collaborators consumed by one invocation of
lld_process_discovery_rule, in call order: the rule lock, the rule row
fetch, and the results of the calls to lld_filter_load,
lld_macro_paths_get and lld_rows_get (each an error text or a value;
for the rows the shared info buffer, NULL until a diagnostic is
appended, comes with them), then the three fallible downstream
materialisers (each may append to the accumulated error text and
reports parent-host-removed by failing) and the error text appended by
lld_update_hosts. -/
structure DriverIn where
  lockOk : Bool
  ruleRow : Option RuleRow
  condLoadRes : Except String (List lld_condition_t)
  pathsRes : Except String (List zbx_lld_macro_path_t)
  rowsRes : Except String (List zbx_lld_row_t × Option String)
  itemsOk : Bool
  itemsErr : String
  triggersOk : Bool
  triggersErr : String
  graphsOk : Bool
  graphsErr : String
  hostsErr : String

/-- The externally observable effects of one invocation of
lld_process_discovery_rule: whether the rule lock was released, whether
the run reached the error-consolidation step, the two clauses of the
single update-items statement, whether that statement was executed,
whether the item diff was applied to the configuration cache, whether
the internal became-supported event was emitted, and the final value of
the error text at consolidation. -/
structure DriverOut where
  unlocked : Bool
  reached : Bool
  stateClause : Bool
  errorClause : Bool
  updateIssued : Bool
  diffApplied : Bool
  eventEmitted : Bool
  finalError : Option String
deriving DecidableEq, Repr

/-- The error-consolidation tail of lld_process_discovery_rule: the
error clause is added iff the error text is set and differs from the
previously persisted error (strcmp with db_error), the update statement
is executed iff some clause was added (sql_start == sql_continue), and
the diff is applied iff some diff flag was set. -/
def driverConsolidate (row : RuleRow) (stClause evEmitted : Bool)
    (err : Option String) : DriverOut :=
  let errClause := match err with
    | some e => !(e == row.dbError)
    | none => false
  ⟨true, true, stClause, errClause, stClause || errClause,
    stClause || errClause, evEmitted, err⟩

/-- An exit through the clean label: the lock is released and nothing
is persisted. -/
def driverCleanExit : DriverOut :=
  ⟨true, false, false, false, false, false, false, none⟩

/-- lld_process_discovery_rule from lld.c, over the external
collaborators of DriverIn: a held lock or a missing rule row aborts
early; a failure of filter load, macro-path load or row extraction
jumps to error consolidation with that error text; otherwise the three
fallible downstream updates run in order (a parent-host-removed failure
abandons the run through the clean label without persisting anything),
the NOTSUPPORTED state transitions to NORMAL emitting one internal
event and adding the state clause, the info diagnostic is concatenated
onto the error text, and the run consolidates. -/
def lld_process_discovery_rule (inp : DriverIn) : DriverOut :=
  if !inp.lockOk then
    ⟨false, false, false, false, false, false, false, none⟩
  else
    match inp.ruleRow with
    | none => driverCleanExit
    | some row =>
        match inp.condLoadRes with
        | Except.error e => driverConsolidate row false false (some e)
        | Except.ok _ =>
            match inp.pathsRes with
            | Except.error e => driverConsolidate row false false (some e)
            | Except.ok _ =>
                match inp.rowsRes with
                | Except.error e => driverConsolidate row false false (some e)
                | Except.ok (_, info) =>
                    let err0 := "" ++ inp.itemsErr
                    if !inp.itemsOk then driverCleanExit
                    else
                      let err1 := err0 ++ inp.triggersErr
                      if !inp.triggersOk then driverCleanExit
                      else
                        let err2 := err1 ++ inp.graphsErr
                        if !inp.graphsOk then driverCleanExit
                        else
                          let err3 := err2 ++ inp.hostsErr
                          let st := row.state == ItemState.notsupported
                          let err4 := match info with
                            | some i => err3 ++ i
                            | none => err3
                          driverConsolidate row st st (some err4)

/-- Whether an invocation transitions the rule's state
NOTSUPPORTED to NORMAL: the run must get past the lock, the row fetch,
the three loads and the three fallible downstream stages, and the
fetched state must be NOTSUPPORTED. -/
def driverStateChanged (inp : DriverIn) : Bool :=
  inp.lockOk &&
  (match inp.ruleRow with
   | none => false
   | some row =>
       (match inp.condLoadRes with | Except.ok _ => true | Except.error _ => false) &&
       (match inp.pathsRes with | Except.ok _ => true | Except.error _ => false) &&
       (match inp.rowsRes with | Except.ok _ => true | Except.error _ => false) &&
       inp.itemsOk && inp.triggersOk && inp.graphsOk &&
       (row.state == ItemState.notsupported))

/-
  Concrete fixtures shared by witnesses and counterexamples.
-/

/-- An engine that matches exactly when the value equals the pattern. -/
def matchEng : RegexpEng :=
  fun _ v p => if v == p then RegexpResult.matched else RegexpResult.noMatch

/-- An engine that always reports the default (error) outcome. -/
def failEng : RegexpEng := fun _ _ _ => RegexpResult.failed

/-- A row with no pairs and no opening path. -/
def emptyRow : JsonRowView := ⟨[], fun _ => none⟩

/-- A row carrying the single top-level pair M = v. -/
def rowM : JsonRowView := ⟨[("M", "v")], fun _ => none⟩

/-- An evaluator that always errors. -/
def noneEval : List Char → Option ℚ := fun _ => none

/-- An evaluator that always yields 1. -/
def oneEval : List Char → Option ℚ := fun _ => some 1

/-- Exact comparison standing in for zbx_double_compare. -/
def eqComp : ℚ → ℚ → Bool := fun a b => a == b

/-- A two-condition AND_OR filter sharing one macro, used to count
diagnostic lines. -/
def dupMacroFilter : lld_filter_t :=
  ⟨[⟨1, "M", "a", [], ConditionOperator.regexp⟩,
    ⟨2, "M", "b", [], ConditionOperator.regexp⟩], "", EvalType.andOr⟩

/-- A one-condition AND filter whose macro resolves nowhere, so every
row is dropped. -/
def dropFilter : lld_filter_t :=
  ⟨[⟨1, "X", "p", [], ConditionOperator.regexp⟩], "", EvalType.and⟩

/-
  Specification-side functions the theorems compare the code against.
-/

/-- The diagnostic line lld_check_received_data_for_filter writes for a
condition: the macro-path entry's macro and path when the condition's
macro has one, otherwise the condition's macro alone. -/
def diagEntryOf (t : List zbx_lld_macro_path_t) (c : lld_condition_t) :
    DiagEntry :=
  match macroPathFind t c.macroName with
  | some mp => (mp.macroName, some mp.path)
  | none => (c.macroName, none)

/-- The spec's reading of AND_OR, computed group by group over the
contiguous runs of equal macros: OR within the leading run, AND with
the rest. -/
def specGroups (mc : lld_condition_t → Bool) : List lld_condition_t → Bool
  | [] => true
  | c :: rest =>
      ((mc c || (rest.takeWhile (fun d => d.macroName == c.macroName)).any mc) &&
        specGroups mc (rest.dropWhile (fun d => d.macroName == c.macroName)))
termination_by l => l.length
decreasing_by
  simp only [List.length_cons]
  exact Nat.lt_succ_of_le ((List.dropWhile_sublist _).length_le)

/-- Whether equal macros are contiguous in the condition list: after
the leading run of the head's macro, that macro never recurs, and the
remainder is again grouped.  Sorting by macro guarantees this. -/
def groupedMacros : List lld_condition_t → Bool
  | [] => true
  | c :: rest =>
      ((rest.dropWhile (fun d => d.macroName == c.macroName)).all
          (fun d => !(d.macroName == c.macroName)) &&
        groupedMacros (rest.dropWhile (fun d => d.macroName == c.macroName)))
termination_by l => l.length
decreasing_by
  simp only [List.length_cons]
  exact Nat.lt_succ_of_le ((List.dropWhile_sublist _).length_le)

/-
  Helper lemmas.
-/

/-- The or loop on a nonempty list returns whether any condition
matches, whatever its incoming value of ret. -/
theorem orLoop_ne_nil (mc : lld_condition_t → Bool) :
    ∀ l : List lld_condition_t, l ≠ [] → ∀ r, orLoop mc l r = l.any mc := by
  intro l
  induction l with
  | nil => intro h; exact absurd rfl h
  | cons c rest ih =>
      intro _ r
      show (if mc c = true then mc c else orLoop mc rest (mc c)) = (c :: rest).any mc
      cases hmc : mc c with
      | true => simp [hmc]
      | false =>
          simp only [hmc, Bool.false_eq_true, if_false, List.any_cons, Bool.false_or]
          cases rest with
          | nil => rfl
          | cons d rest' => exact ih (List.cons_ne_nil _ _) false

/-- Claim C3 (amended): under evaltype OR, a filter with at least one
condition passes iff some condition matches the row; a filter with no
conditions passes; and the result is unchanged by whatever follows the
first matching condition (short-circuit). -/
theorem or_semantics (eng : RegexpEng) (jp_row : JsonRowView)
    (t : List zbx_lld_macro_path_t) (l : List lld_condition_t) (e : String) :
    (l ≠ [] →
      (filter_evaluate_or eng jp_row t ⟨l, e, EvalType.or⟩ = true ↔
        ∃ c ∈ l, filter_condition_match eng jp_row t c = true)) ∧
    filter_evaluate_or eng jp_row t ⟨[], e, EvalType.or⟩ = true ∧
    (∀ (l₁ : List lld_condition_t) (c : lld_condition_t)
        (l₂ l₂' : List lld_condition_t),
      filter_condition_match eng jp_row t c = true →
      filter_evaluate_or eng jp_row t ⟨l₁ ++ c :: l₂, e, EvalType.or⟩ =
        filter_evaluate_or eng jp_row t ⟨l₁ ++ c :: l₂', e, EvalType.or⟩) := by
  refine ⟨fun hne => ?_, rfl, fun l₁ c l₂ l₂' hc => ?_⟩
  · rw [show filter_evaluate_or eng jp_row t ⟨l, e, EvalType.or⟩ =
        orLoop (filter_condition_match eng jp_row t) l true from rfl,
      orLoop_ne_nil _ l hne]
    exact List.any_eq_true
  · have h1 := orLoop_ne_nil (filter_condition_match eng jp_row t)
      (l₁ ++ c :: l₂) (by simp) true
    have h2 := orLoop_ne_nil (filter_condition_match eng jp_row t)
      (l₁ ++ c :: l₂') (by simp) true
    show orLoop _ (l₁ ++ c :: l₂) true = orLoop _ (l₁ ++ c :: l₂') true
    rw [h1, h2]
    simp [List.any_append, hc]

/-- Claim C3, counterexample to the claim as stated: with no
conditions, evaluation under OR passes although no condition matches
the row. -/
theorem or_empty_counterexample :
    filter_evaluate_or matchEng emptyRow [] ⟨[], "", EvalType.or⟩ = true ∧
    ¬ ∃ c ∈ ([] : List lld_condition_t),
        filter_condition_match matchEng emptyRow [] c = true := by
  exact ⟨rfl, by simp⟩

/-- Claim C3, witness: the amended theorem applied to a one-condition
filter whose condition matches. -/
theorem or_semantics_witness :
    filter_evaluate_or matchEng rowM []
      ⟨[⟨1, "M", "v", [], ConditionOperator.regexp⟩], "", EvalType.or⟩ = true :=
  ((or_semantics matchEng rowM [] [⟨1, "M", "v", [], ConditionOperator.regexp⟩]
    "").1 (by decide)).mpr (by decide)

/-- Claim C4 (amended): two conditions on the same macro with the same
pattern and the same resolved regexp set, one with operator REGEXP and
one with NOT_REGEXP, evaluate to opposite results whenever the macro
resolves to a value on which the engine reports match or no-match; when
the engine reports neither (an engine error) both evaluate to FAIL, and
when the macro does not resolve both evaluate to FAIL. -/
theorem regexp_negation_cases (eng : RegexpEng) (jp_row : JsonRowView)
    (t : List zbx_lld_macro_path_t) (m r : String) (rs : List String)
    (i j : Nat) :
    (∀ v, zbx_lld_macro_value_by_name jp_row t m = some v →
      (eng rs v r ≠ RegexpResult.failed →
        filter_condition_match eng jp_row t ⟨i, m, r, rs, ConditionOperator.regexp⟩ ≠
          filter_condition_match eng jp_row t ⟨j, m, r, rs, ConditionOperator.notRegexp⟩) ∧
      (eng rs v r = RegexpResult.failed →
        filter_condition_match eng jp_row t ⟨i, m, r, rs, ConditionOperator.regexp⟩ = false ∧
        filter_condition_match eng jp_row t ⟨j, m, r, rs, ConditionOperator.notRegexp⟩ = false)) ∧
    (zbx_lld_macro_value_by_name jp_row t m = none →
      filter_condition_match eng jp_row t ⟨i, m, r, rs, ConditionOperator.regexp⟩ = false ∧
      filter_condition_match eng jp_row t ⟨j, m, r, rs, ConditionOperator.notRegexp⟩ = false) := by
  constructor
  · intro v hv
    constructor
    · intro hne
      simp only [filter_condition_match, hv]
      cases hres : eng rs v r with
      | matched => simp
      | noMatch => simp
      | failed => exact absurd hres hne
    · intro hres
      simp [filter_condition_match, hv, hres]
  · intro hv
    simp [filter_condition_match, hv]

/-- Claim C4, counterexample to the claim as stated: the macro resolves
on the row, yet under an engine that reports an error the REGEXP and
NOT_REGEXP conditions evaluate to the same result (both FAIL). -/
theorem regexp_negation_counterexample :
    zbx_lld_macro_value_by_name rowM [] "M" = some "v" ∧
    filter_condition_match failEng rowM [] ⟨1, "M", "p", [], ConditionOperator.regexp⟩ =
      filter_condition_match failEng rowM [] ⟨2, "M", "p", [], ConditionOperator.notRegexp⟩ :=
  ⟨rfl, rfl⟩

/-- Claim C4, witness: the amended theorem applied to a resolving row
and a non-erring engine. -/
theorem regexp_negation_witness :
    filter_condition_match matchEng rowM [] ⟨1, "M", "v", [], ConditionOperator.regexp⟩ ≠
      filter_condition_match matchEng rowM [] ⟨2, "M", "v", [], ConditionOperator.notRegexp⟩ :=
  ((regexp_negation_cases matchEng rowM [] "M" "v" [] 1 2).1 "v" rfl).1 (by decide)

/-- Claim C5: when a macro has a macro-path entry, resolution is the
path extraction for that entry, independent of the row's top-level
pairs (direct lookup is never consulted); when it has no entry,
resolution is exactly the top-level pair search. -/
theorem macro_path_precedence (t : List zbx_lld_macro_path_t) (m : String) :
    (∀ mp, macroPathFind t m = some mp →
      ∀ (po : String → Option String) (ps ps' : List (String × String)),
        zbx_lld_macro_value_by_name ⟨ps, po⟩ t m = po mp.path ∧
        zbx_lld_macro_value_by_name ⟨ps, po⟩ t m =
          zbx_lld_macro_value_by_name ⟨ps', po⟩ t m) ∧
    (macroPathFind t m = none →
      ∀ jp_row : JsonRowView,
        zbx_lld_macro_value_by_name jp_row t m = lookupPair jp_row.pairs m) := by
  constructor
  · intro mp h po ps ps'
    constructor <;> simp [zbx_lld_macro_value_by_name, h]
  · intro h jp_row
    simp [zbx_lld_macro_value_by_name, h]

/-- Claim C5, witness: with the table entry NAME mapping to the path
dollar-dot-name, resolution takes the path extraction even though a
top-level pair named NAME with a different value is present. -/
theorem macro_path_precedence_witness :
    zbx_lld_macro_value_by_name
      ⟨[("NAME", "wrong")], fun p => if p == "$.name" then some "eth0" else none⟩
      [⟨"NAME", "$.name"⟩] "NAME" = some "eth0" ∧
    lookupPair [("NAME", "wrong")] "NAME" = some "wrong" := by
  constructor
  · exact ((macro_path_precedence [⟨"NAME", "$.name"⟩] "NAME").1
      ⟨"NAME", "$.name"⟩ rfl
      (fun p => if p == "$.name" then some "eth0" else none)
      [("NAME", "wrong")] []).1.trans (by decide)
  · decide

/-- A byte-wise prefix is no longer than the text it opens. -/
theorem isPrefixOf_length_le :
    ∀ l₁ l₂ : List Char, l₁.isPrefixOf l₂ = true → l₁.length ≤ l₂.length := by
  intro l₁
  induction l₁ with
  | nil => intro l₂ _; simp
  | cons a l ih =>
      intro l₂ h
      cases l₂ with
      | nil => simp [List.isPrefixOf] at h
      | cons b l₂' =>
          simp only [List.isPrefixOf, Bool.and_eq_true] at h
          have := ih l₂' h.2
          simp only [List.length_cons]
          omega

/-- The in-place token overwrite preserves the text's length for any
budget, provided the replacement is as long as the token. -/
theorem substTokenFuel_length (tok repl : List Char)
    (hlen : repl.length = tok.length) :
    ∀ (fuel : Nat) (l : List Char),
      (substTokenFuel tok repl fuel l).length = l.length := by
  intro fuel
  induction fuel with
  | zero =>
      intro l
      cases l with
      | nil => rfl
      | cons c rest => rfl
  | succ n ih =>
      intro l
      cases l with
      | nil => rfl
      | cons c rest =>
          show (if tok ≠ [] ∧ tok.isPrefixOf (c :: rest) then
              repl ++ substTokenFuel tok repl n (rest.drop (tok.length - 1))
            else
              c :: substTokenFuel tok repl n rest).length = (c :: rest).length
          by_cases h : tok ≠ [] ∧ tok.isPrefixOf (c :: rest)
          · rw [if_pos h]
            have htok : 1 ≤ tok.length := List.length_pos.mpr h.1
            have hle : tok.length ≤ rest.length + 1 := by
              have := isPrefixOf_length_le tok (c :: rest) h.2
              simpa using this
            simp only [List.length_append, ih, List.length_drop, hlen,
              List.length_cons]
            omega
          · rw [if_neg h]
            simp [ih]

/-- substToken preserves length when the replacement is as long as the
token. -/
theorem substToken_length (tok repl : List Char)
    (hlen : repl.length = tok.length) (l : List Char) :
    (substToken tok repl l).length = l.length :=
  substTokenFuel_length tok repl hlen l.length l

/-- The replacement written for a condition is exactly as long as its
token. -/
theorem tokenRepl_length (id : Nat) (b : Bool) :
    (tokenRepl (idToken id).length b).length = (idToken id).length := by
  simp only [tokenRepl, idToken, List.length_cons, List.length_replicate,
    List.length_append]
  omega

/-- The condition loop of filter_evaluate_expression preserves the
length of the expression text. -/
theorem exprSubstLoop_length (mc : lld_condition_t → Bool) :
    ∀ (l : List lld_condition_t) (e : List Char) (b : Bool),
      ((exprSubstLoop mc l e b).1).length = e.length := by
  intro l
  induction l with
  | nil => intro e b; rfl
  | cons c rest ih =>
      intro e b
      show ((exprSubstLoop mc rest
          (substToken (idToken c.id) (tokenRepl (idToken c.id).length (mc c)) e)
          (mc c)).1).length = e.length
      rw [ih, substToken_length _ _ (tokenRepl_length c.id (mc c))]

/-- Claim C6: the textual substitution of condition-id tokens performed
by filter_evaluate_expression yields a text of the same length as the
filter's expression string. -/
theorem expression_subst_length (eng : RegexpEng) (jp_row : JsonRowView)
    (t : List zbx_lld_macro_path_t) (filter : lld_filter_t) :
    ((exprSubstLoop (filter_condition_match eng jp_row t) filter.conditions
        filter.expression.data false).1).length = filter.expression.length :=
  exprSubstLoop_length (filter_condition_match eng jp_row t)
    filter.conditions filter.expression.data false

/-- The ret value left by the condition loop is the match result of the
last condition, or the incoming value when there are none. -/
theorem exprSubstLoop_snd (mc : lld_condition_t → Bool) :
    ∀ (l : List lld_condition_t) (e : List Char) (b : Bool),
      (exprSubstLoop mc l e b).2 =
        (match l.getLast? with
         | some c => mc c
         | none => b) := by
  intro l
  induction l with
  | nil => intro e b; rfl
  | cons c rest ih =>
      intro e b
      cases rest with
      | nil => simp [exprSubstLoop]
      | cons d rest' =>
          show (exprSubstLoop mc (d :: rest') _ (mc c)).2 = _
          rw [ih, List.getLast?_cons_cons]
          cases hgl : (d :: rest').getLast? with
          | none => exact absurd hgl (by simp)
          | some x => rfl

/-- Claim C2 (amended): when the external evaluator errors on the
substituted expression text, filter_evaluate_expression returns the
match result of the filter's last condition (FAIL when there are no
conditions), not unconditionally FAIL. -/
theorem expression_error_last_condition (evalF : List Char → Option ℚ)
    (dcomp : ℚ → ℚ → Bool) (eng : RegexpEng) (jp_row : JsonRowView)
    (t : List zbx_lld_macro_path_t) (filter : lld_filter_t)
    (h : evalF ((exprSubstLoop (filter_condition_match eng jp_row t)
        filter.conditions filter.expression.data false).1) = none) :
    filter_evaluate_expression evalF dcomp eng jp_row t filter =
      (match filter.conditions.getLast? with
       | some c => filter_condition_match eng jp_row t c
       | none => false) := by
  rw [show filter_evaluate_expression evalF dcomp eng jp_row t filter =
      (match evalF ((exprSubstLoop (filter_condition_match eng jp_row t)
          filter.conditions filter.expression.data false).1) with
       | some v => !(dcomp v 0)
       | none => (exprSubstLoop (filter_condition_match eng jp_row t)
          filter.conditions filter.expression.data false).2) from rfl]
  rw [h]
  exact exprSubstLoop_snd (filter_condition_match eng jp_row t)
    filter.conditions filter.expression.data false

/-- Claim C2, counterexample to the claim as stated: the evaluator
errors on the substituted text, yet evaluation returns PASS because the
single condition matched. -/
theorem expression_error_counterexample :
    noneEval ((exprSubstLoop (filter_condition_match matchEng rowM [])
        [⟨1, "M", "v", [], ConditionOperator.regexp⟩] "x".data false).1) = none ∧
    filter_evaluate_expression noneEval eqComp matchEng rowM []
      ⟨[⟨1, "M", "v", [], ConditionOperator.regexp⟩], "x", EvalType.expr⟩ = true := by
  exact ⟨rfl, by decide⟩

/-- Claim C2, witness: the amended theorem applied to a concrete
one-condition filter under an always-erring evaluator. -/
theorem expression_error_witness :
    filter_evaluate_expression noneEval eqComp matchEng rowM []
      ⟨[⟨7, "M", "w", [], ConditionOperator.regexp⟩], "y", EvalType.expr⟩ =
      filter_condition_match matchEng rowM [] ⟨7, "M", "w", [], ConditionOperator.regexp⟩ :=
  expression_error_last_condition noneEval eqComp matchEng rowM []
    ⟨[⟨7, "M", "w", [], ConditionOperator.regexp⟩], "y", EvalType.expr⟩ rfl

/-- The diagnostic fold appends, onto any incoming buffer, exactly one
entry per condition whose macro fails to resolve. -/
theorem lld_check_foldl (jp_row : JsonRowView)
    (t : List zbx_lld_macro_path_t) :
    ∀ (l : List lld_condition_t) (acc : List DiagEntry),
      l.foldl (fun info c =>
        match macroPathFind t c.macroName with
        | some mp =>
            if (jp_row.pathOpen mp.path).isNone then
              info ++ [(mp.macroName, some mp.path)]
            else
              info
        | none =>
            if (lookupPair jp_row.pairs c.macroName).isNone then
              info ++ [(c.macroName, none)]
            else
              info) acc =
      acc ++ (l.filter (fun c =>
          (zbx_lld_macro_value_by_name jp_row t c.macroName).isNone)).map
        (diagEntryOf t) := by
  intro l
  induction l with
  | nil => intro acc; simp
  | cons c rest ih =>
      intro acc
      rw [List.foldl_cons, ih]
      cases hf : macroPathFind t c.macroName with
      | some mp =>
          cases hpo : jp_row.pathOpen mp.path with
          | none =>
              simp [zbx_lld_macro_value_by_name, hf, hpo, List.filter_cons,
                diagEntryOf]
          | some v =>
              simp [zbx_lld_macro_value_by_name, hf, hpo, List.filter_cons]
      | none =>
          cases hlp : lookupPair jp_row.pairs c.macroName with
          | none =>
              simp [zbx_lld_macro_value_by_name, hf, hlp, List.filter_cons,
                diagEntryOf]
          | some v =>
              simp [zbx_lld_macro_value_by_name, hf, hlp, List.filter_cons]

/-- Claim C9 (amended): the info buffer receives, in condition order,
exactly one diagnostic line per condition whose macro fails to resolve
on the row, and no line for conditions whose macros resolve; a macro
shared by several failing conditions therefore produces one line per
condition, not one line in total. -/
theorem diag_lines_characterization (filter : lld_filter_t)
    (jp_row : JsonRowView) (t : List zbx_lld_macro_path_t) :
    lld_check_received_data_for_filter filter jp_row t =
      (filter.conditions.filter (fun c =>
          (zbx_lld_macro_value_by_name jp_row t c.macroName).isNone)).map
        (diagEntryOf t) := by
  rw [show lld_check_received_data_for_filter filter jp_row t =
      filter.conditions.foldl _ [] from rfl, lld_check_foldl]
  rfl

/-- Claim C9, counterexample to the claim as stated: one macro, used by
two conditions and resolving nowhere on the row, gets two diagnostic
lines for the row, not exactly one. -/
theorem diag_per_condition_counterexample :
    zbx_lld_macro_value_by_name emptyRow [] "M" = none ∧
    lld_check_received_data_for_filter dupMacroFilter emptyRow [] =
      [("M", none), ("M", none)] :=
  ⟨rfl, rfl⟩

/-- The element loop over an always-passing, never-diagnosing filter
keeps exactly the object elements and produces no diagnostics. -/
theorem lldRowsScan_all_pass (evalF : List Char → Option ℚ)
    (dcomp : ℚ → ℚ → Bool) (eng : RegexpEng) (view : Json → JsonRowView)
    (f : lld_filter_t) (t : List zbx_lld_macro_path_t)
    (hpass : ∀ r, filter_evaluate evalF dcomp eng r t f = true)
    (hdiag : ∀ r, lld_check_received_data_for_filter f r t = []) :
    ∀ elems : List Json,
      lldRowsScan evalF dcomp eng view f t elems =
        (elems.filterMap (fun x => if x.isObj then some ⟨x, []⟩ else none),
          []) := by
  intro elems
  induction elems with
  | nil => rfl
  | cons x rest ih =>
      cases hx : x.isObj with
      | true =>
          simp [lldRowsScan, hx, hpass (view x), hdiag (view x), ih,
            List.filterMap_cons]
      | false =>
          simp [lldRowsScan, hx, ih, List.filterMap_cons]

/-- Claim C10: a filter with no conditions evaluates to PASS under
AND_OR, AND and OR, and consequently row extraction under those modes
keeps every object element of an accepted payload. -/
theorem empty_filter_passes (evalF : List Char → Option ℚ)
    (dcomp : ℚ → ℚ → Bool) (eng : RegexpEng) (jp_row : JsonRowView)
    (t : List zbx_lld_macro_path_t) (e : String) :
    filter_evaluate evalF dcomp eng jp_row t ⟨[], e, EvalType.andOr⟩ = true ∧
    filter_evaluate evalF dcomp eng jp_row t ⟨[], e, EvalType.and⟩ = true ∧
    filter_evaluate evalF dcomp eng jp_row t ⟨[], e, EvalType.or⟩ = true ∧
    (∀ (view : Json → JsonRowView) (j : Json) (elems : List Json)
        (ty : EvalType),
      ty = EvalType.andOr ∨ ty = EvalType.and ∨ ty = EvalType.or →
      jsonArrayOf j = some elems →
      lld_rows_get evalF dcomp eng view ⟨[], e, ty⟩ t (some j) =
        Except.ok
          (elems.filterMap (fun x => if x.isObj then some ⟨x, []⟩ else none),
            [])) := by
  refine ⟨rfl, rfl, rfl, fun view j elems ty hty hj => ?_⟩
  have hpass : ∀ r, filter_evaluate evalF dcomp eng r t ⟨[], e, ty⟩ = true := by
    intro r
    rcases hty with h | h | h <;> subst h <;> rfl
  have hdiag : ∀ r,
      lld_check_received_data_for_filter ⟨[], e, ty⟩ r t = [] := fun _ => rfl
  show (match jsonArrayOf j with
    | none => Except.error RowsError.payloadNotArray
    | some elems => Except.ok
        (lldRowsScan evalF dcomp eng view ⟨[], e, ty⟩ t elems)) = _
  rw [hj]
  show Except.ok (lldRowsScan evalF dcomp eng view ⟨[], e, ty⟩ t elems) = _
  rw [lldRowsScan_all_pass evalF dcomp eng view ⟨[], e, ty⟩ t hpass hdiag]

/-- Claim C10, witness: the theorem applied to a two-element payload in
the legacy object form, one element an object and one a scalar, under
evaltype AND_OR. -/
theorem empty_filter_passes_witness :
    lld_rows_get noneEval eqComp matchEng (fun _ => emptyRow)
      ⟨[], "", EvalType.andOr⟩ []
      (some (Json.jobj [("data",
        Json.jarr [Json.jobj [("A", Json.jstr "1")], Json.jstr "x"])])) =
      Except.ok ([⟨Json.jobj [("A", Json.jstr "1")], []⟩], []) :=
  ((empty_filter_passes noneEval eqComp matchEng emptyRow [] "").2.2.2
    (fun _ => emptyRow)
    (Json.jobj [("data", Json.jarr [Json.jobj [("A", Json.jstr "1")], Json.jstr "x"])])
    [Json.jobj [("A", Json.jstr "1")], Json.jstr "x"]
    EvalType.andOr (Or.inl rfl) rfl).trans rfl

/-- The element loop keeps, in order, exactly the object elements that
pass the filter, and concatenates the per-object diagnostics. -/
theorem lldRowsScan_characterization (evalF : List Char → Option ℚ)
    (dcomp : ℚ → ℚ → Bool) (eng : RegexpEng) (view : Json → JsonRowView)
    (f : lld_filter_t) (t : List zbx_lld_macro_path_t) :
    ∀ elems : List Json,
      lldRowsScan evalF dcomp eng view f t elems =
        (elems.filterMap (fun x =>
            if x.isObj && filter_evaluate evalF dcomp eng (view x) t f then
              some ⟨x, []⟩ else none),
          ((elems.filter Json.isObj).map
            (fun x => lld_check_received_data_for_filter f (view x) t)).flatten) := by
  intro elems
  induction elems with
  | nil => rfl
  | cons x rest ih =>
      cases hx : x.isObj with
      | true =>
          cases hfe : filter_evaluate evalF dcomp eng (view x) t f with
          | true =>
              simp [lldRowsScan, hx, hfe, ih, List.filterMap_cons,
                List.filter_cons]
          | false =>
              simp [lldRowsScan, hx, hfe, ih, List.filterMap_cons,
                List.filter_cons]
      | false =>
          simp [lldRowsScan, hx, ih, List.filterMap_cons, List.filter_cons]

/-- Claim C8 (amended): an unparseable payload and a payload in neither
accepted shape fail with PAYLOAD_NOT_ARRAY and yield no rows; a payload
whose top-level value is an array, or an object with an array under the
key data, succeeds and yields one row per object element that passes
the filter (object elements failing the filter yield no row, non-object
elements are skipped). -/
theorem rows_get_shape_semantics (evalF : List Char → Option ℚ)
    (dcomp : ℚ → ℚ → Bool) (eng : RegexpEng) (view : Json → JsonRowView)
    (f : lld_filter_t) (t : List zbx_lld_macro_path_t) :
    lld_rows_get evalF dcomp eng view f t none =
      Except.error RowsError.payloadNotArray ∧
    (∀ j : Json, jsonArrayOf j = none →
      lld_rows_get evalF dcomp eng view f t (some j) =
        Except.error RowsError.payloadNotArray) ∧
    (∀ (j : Json) (elems : List Json), jsonArrayOf j = some elems →
      lld_rows_get evalF dcomp eng view f t (some j) =
        Except.ok
          (elems.filterMap (fun x =>
              if x.isObj && filter_evaluate evalF dcomp eng (view x) t f then
                some ⟨x, []⟩ else none),
            ((elems.filter Json.isObj).map
              (fun x => lld_check_received_data_for_filter f (view x) t)).flatten)) := by
  refine ⟨rfl, fun j hj => ?_, fun j elems hj => ?_⟩
  · show (match jsonArrayOf j with
      | none => Except.error RowsError.payloadNotArray
      | some elems => Except.ok
          (lldRowsScan evalF dcomp eng view f t elems)) = _
    rw [hj]
  · show (match jsonArrayOf j with
      | none => Except.error RowsError.payloadNotArray
      | some elems => Except.ok
          (lldRowsScan evalF dcomp eng view f t elems)) = _
    rw [hj]
    show Except.ok (lldRowsScan evalF dcomp eng view f t elems) = _
    rw [lldRowsScan_characterization]

/-- Claim C8, counterexample to the claim as stated: an accepted
array payload with exactly one object element yields no rows at all,
because the element fails the filter; extraction does not yield one row
per object element. -/
theorem rows_filter_drop_counterexample :
    lld_rows_get noneEval eqComp matchEng (fun _ => emptyRow) dropFilter []
      (some (Json.jarr [Json.jobj [("A", Json.jstr "1")]])) =
      Except.ok ([], [("X", none)]) ∧
    ([Json.jobj [("A", Json.jstr "1")]].filter Json.isObj).length = 1 :=
  ⟨rfl, rfl⟩

/-- Claim C8, witness: the amended theorem applied to the legacy object
form with a "data" array whose single element is a scalar. -/
theorem rows_get_shape_witness :
    lld_rows_get noneEval eqComp matchEng (fun _ => emptyRow) dropFilter []
      (some (Json.jobj [("data", Json.jarr [Json.jstr "s"])])) =
      Except.ok ([], []) :=
  ((rows_get_shape_semantics noneEval eqComp matchEng (fun _ => emptyRow)
    dropFilter []).2.2 (Json.jobj [("data", Json.jarr [Json.jstr "s"])])
    [Json.jstr "s"] rfl).trans rfl

/-- Inside a run, the and/or loop ORs the current group into ret and
then behaves as the group-wise specification on the remaining groups:
with lastmacro m, the result is ret OR-ed with the leading run of m,
AND-ed with the group-wise result of the rest. -/
theorem andOrLoop_eq (mc : lld_condition_t → Bool) :
    ∀ (l : List lld_condition_t) (m : String) (ret : Bool),
      andOrLoop mc l (some m) ret =
        ((ret || (l.takeWhile (fun d => d.macroName == m)).any mc) &&
          specGroups mc (l.dropWhile (fun d => d.macroName == m))) := by
  intro l
  induction l with
  | nil =>
      intro m ret
      simp only [andOrLoop, List.takeWhile_nil, List.dropWhile_nil,
        List.any_nil, Bool.or_false]
      rw [show specGroups mc [] = true from by simp [specGroups]]
      cases ret <;> rfl
  | cons c rest ih =>
      intro m ret
      by_cases h : c.macroName = m
      · subst h
        have step : andOrLoop mc (c :: rest) (some c.macroName) ret =
            andOrLoop mc rest (some c.macroName) (ret || mc c) := by
          show (if some c.macroName = some c.macroName then
              andOrLoop mc rest (some c.macroName) (ret || mc c)
            else if ret then andOrLoop mc rest (some c.macroName) (mc c)
            else false) = _
          rw [if_pos rfl]
        rw [step, ih]
        rw [List.takeWhile_cons, List.dropWhile_cons]
        simp [Bool.or_assoc]
      · have hne : ¬ ((some m : Option String) = some c.macroName) := by
          intro hopt
          exact h (Option.some.inj hopt).symm
        have step : andOrLoop mc (c :: rest) (some m) ret =
            (if ret then andOrLoop mc rest (some c.macroName) (mc c)
             else false) := by
          show (if some m = some c.macroName then
              andOrLoop mc rest (some c.macroName) (ret || mc c)
            else if ret then andOrLoop mc rest (some c.macroName) (mc c)
            else false) = _
          rw [if_neg hne]
        rw [step, List.takeWhile_cons, List.dropWhile_cons]
        have hbeq : (c.macroName == m) = false := by
          simp [h]
        rw [hbeq]
        simp only [Bool.false_eq_true, if_false, List.any_nil, Bool.or_false]
        cases ret with
        | false => simp
        | true =>
            rw [ih]
            simp only [Bool.true_and]
            rw [show specGroups mc (c :: rest) =
                ((mc c || (rest.takeWhile
                    (fun d => d.macroName == c.macroName)).any mc) &&
                  specGroups mc (rest.dropWhile
                    (fun d => d.macroName == c.macroName))) from by
              simp [specGroups]]
            simp

/-- From its initial state (lastmacro NULL, ret SUCCEED) the and/or
loop computes exactly the group-wise specification over contiguous
runs. -/
theorem andOrLoop_none (mc : lld_condition_t → Bool) :
    ∀ l : List lld_condition_t, andOrLoop mc l none true = specGroups mc l := by
  intro l
  cases l with
  | nil => simp [andOrLoop, specGroups]
  | cons c rest =>
      have step : andOrLoop mc (c :: rest) none true =
          andOrLoop mc rest (some c.macroName) (mc c) := by
        show (if (none : Option String) = some c.macroName then
            andOrLoop mc rest (some c.macroName) (true || mc c)
          else if true then andOrLoop mc rest (some c.macroName) (mc c)
          else false) = _
        simp
      rw [step, andOrLoop_eq]
      rw [show specGroups mc (c :: rest) =
          ((mc c || (rest.takeWhile
              (fun d => d.macroName == c.macroName)).any mc) &&
            specGroups mc (rest.dropWhile
              (fun d => d.macroName == c.macroName))) from by
        simp [specGroups]]

/-- filter_evaluate_and_or equals the group-wise specification on the
filter's conditions (no grouping hypothesis needed: the loop's runs are
the contiguous runs). -/
theorem filter_evaluate_and_or_eq_specGroups (eng : RegexpEng)
    (jp_row : JsonRowView) (t : List zbx_lld_macro_path_t)
    (filter : lld_filter_t) :
    filter_evaluate_and_or eng jp_row t filter =
      specGroups (filter_condition_match eng jp_row t) filter.conditions :=
  andOrLoop_none (filter_condition_match eng jp_row t) filter.conditions

/-- On a macro-grouped list the group-wise result is the order-free
specification: every condition's macro has some matching condition with
that macro. -/
theorem specGroups_iff (mc : lld_condition_t → Bool) :
    ∀ l : List lld_condition_t, groupedMacros l = true →
      (specGroups mc l = true ↔
        ∀ c ∈ l, ∃ d ∈ l, d.macroName = c.macroName ∧ mc d = true) := by
  have key : ∀ (n : Nat) (l : List lld_condition_t), l.length ≤ n →
      groupedMacros l = true →
      (specGroups mc l = true ↔
        ∀ c ∈ l, ∃ d ∈ l, d.macroName = c.macroName ∧ mc d = true) := by
    intro n
    induction n with
    | zero =>
        intro l hl _
        have : l = [] := List.length_eq_zero.mp (Nat.le_zero.mp hl)
        subst this
        simp [specGroups]
    | succ n ih =>
        intro l hl hg
        cases l with
        | nil => simp [specGroups]
        | cons c rest =>
            set g := rest.takeWhile (fun d => d.macroName == c.macroName)
              with hgdef
            set r := rest.dropWhile (fun d => d.macroName == c.macroName)
              with hrdef
            have hsplit : g ++ r = rest := by
              rw [hgdef, hrdef]
              exact List.takeWhile_append_dropWhile _ _
            have hgmem : ∀ d ∈ g, d.macroName = c.macroName := by
              intro d hd
              have := List.mem_takeWhile_imp (hgdef ▸ hd)
              simpa using this
            have hgparts : (r.all (fun d => !(d.macroName == c.macroName))) = true ∧
                groupedMacros r = true := by
              have hg' := hg
              rw [show groupedMacros (c :: rest) =
                  ((r.all (fun d => !(d.macroName == c.macroName))) &&
                    groupedMacros r) from by
                rw [hrdef]
                simp [groupedMacros]] at hg'
              simp only [Bool.and_eq_true] at hg'
              exact hg'
            have hrne : ∀ d ∈ r, ¬ d.macroName = c.macroName := by
              intro d hd
              have := List.all_eq_true.mp hgparts.1 d hd
              simpa using this
            have hrlen : r.length ≤ n := by
              have h1 : r.length ≤ rest.length :=
                (hrdef ▸ (List.dropWhile_sublist _)).length_le
              have h2 : rest.length ≤ n := by simpa using hl
              exact le_trans h1 h2
            have ihr := ih r hrlen hgparts.2
            rw [show specGroups mc (c :: rest) =
                ((mc c || g.any mc) && specGroups mc r) from by
              rw [hgdef, hrdef]
              simp [specGroups]]
            rw [Bool.and_eq_true, ihr, Bool.or_eq_true, List.any_eq_true]
            have hmemrest : ∀ x, x ∈ rest ↔ (x ∈ g ∨ x ∈ r) := by
              intro x
              rw [← hsplit, List.mem_append]
            constructor
            · rintro ⟨hor, hPr⟩ x hx
              rcases List.mem_cons.mp hx with rfl | hx'
              · rcases hor with hmc | ⟨d, hd, hmcd⟩
                · exact ⟨x, List.mem_cons_self x rest, rfl, hmc⟩
                · exact ⟨d, List.mem_cons_of_mem x ((hmemrest d).mpr
                      (Or.inl hd)), hgmem d hd, hmcd⟩
              · rcases (hmemrest x).mp hx' with hxg | hxr
                · rcases hor with hmc | ⟨d, hd, hmcd⟩
                  · exact ⟨c, List.mem_cons_self c rest,
                      (hgmem x hxg).symm, hmc⟩
                  · exact ⟨d, List.mem_cons_of_mem c ((hmemrest d).mpr
                        (Or.inl hd)), (hgmem d hd).trans (hgmem x hxg).symm,
                      hmcd⟩
                · rcases hPr x hxr with ⟨d, hd, he, hm⟩
                  exact ⟨d, List.mem_cons_of_mem c ((hmemrest d).mpr
                      (Or.inr hd)), he, hm⟩
            · intro hP
              constructor
              · rcases hP c (List.mem_cons_self c rest) with ⟨d, hd, he, hm⟩
                rcases List.mem_cons.mp hd with rfl | hd'
                · exact Or.inl hm
                · rcases (hmemrest d).mp hd' with hdg | hdr
                  · exact Or.inr ⟨d, hdg, hm⟩
                  · exact absurd he (hrne d hdr)
              · intro x hxr
                rcases hP x (List.mem_cons_of_mem c
                    ((hmemrest x).mpr (Or.inr hxr))) with ⟨d, hd, he, hm⟩
                have hxne : ¬ x.macroName = c.macroName := hrne x hxr
                rcases List.mem_cons.mp hd with rfl | hd'
                · exact absurd he.symm hxne
                · rcases (hmemrest d).mp hd' with hdg | hdr
                  · exact absurd (he.symm.trans (hgmem d hdg)) hxne
                  · exact ⟨d, hdr, he, hm⟩
  intro l
  exact key l.length l le_rfl

/-- In a sorted list all of whose macros are at least m, whatever
survives dropping the leading run of m no longer carries m. -/
theorem sorted_dropWhile_ne (m : String) :
    ∀ l : List lld_condition_t,
      l.Sorted (fun a b => a.macroName ≤ b.macroName) →
      (∀ d ∈ l, m ≤ d.macroName) →
      ∀ d ∈ l.dropWhile (fun x => x.macroName == m), ¬ d.macroName = m := by
  intro l
  induction l with
  | nil => intro _ _ d hd; simp at hd
  | cons c rest ih =>
      intro hs hge d hd
      rw [List.dropWhile_cons] at hd
      by_cases hc : c.macroName = m
      · rw [if_pos (by simpa using hc)] at hd
        exact ih (List.sorted_cons.mp hs).2
          (fun x hx => hge x (List.mem_cons_of_mem c hx)) d hd
      · rw [if_neg (by simpa using hc)] at hd
        intro hdm
        rcases List.mem_cons.mp hd with rfl | hdr
        · exact hc hdm
        · have h1 : c.macroName ≤ d.macroName :=
            (List.sorted_cons.mp hs).1 d hdr
          have h2 : m ≤ c.macroName := hge c (List.mem_cons_self c rest)
          exact hc (le_antisymm (hdm ▸ h1) h2)

/-- A list sorted by macro has its equal macros contiguous. -/
theorem grouped_of_sorted :
    ∀ l : List lld_condition_t,
      l.Sorted (fun a b => a.macroName ≤ b.macroName) →
      groupedMacros l = true := by
  have key : ∀ (n : Nat) (l : List lld_condition_t), l.length ≤ n →
      l.Sorted (fun a b => a.macroName ≤ b.macroName) →
      groupedMacros l = true := by
    intro n
    induction n with
    | zero =>
        intro l hl _
        have : l = [] := List.length_eq_zero.mp (Nat.le_zero.mp hl)
        subst this
        simp [groupedMacros]
    | succ n ih =>
        intro l hl hs
        cases l with
        | nil => simp [groupedMacros]
        | cons c rest =>
            have hs' := List.sorted_cons.mp hs
            rw [show groupedMacros (c :: rest) =
                (((rest.dropWhile (fun d => d.macroName == c.macroName)).all
                    (fun d => !(d.macroName == c.macroName))) &&
                  groupedMacros (rest.dropWhile
                    (fun d => d.macroName == c.macroName))) from by
              simp [groupedMacros]]
            rw [Bool.and_eq_true]
            constructor
            · rw [List.all_eq_true]
              intro d hd
              have := sorted_dropWhile_ne c.macroName rest hs'.2
                (fun x hx => hs'.1 x hx) d hd
              simpa using this
            · apply ih
              · have h1 : (rest.dropWhile
                    (fun d => d.macroName == c.macroName)).length ≤
                    rest.length := (List.dropWhile_sublist _).length_le
                have h2 : rest.length ≤ n := by simpa using hl
                exact le_trans h1 h2
              · exact hs'.2.sublist (List.dropWhile_sublist _)
  intro l
  exact key l.length l le_rfl

/-- The order-free specification of AND_OR is invariant under
permutation of the conditions. -/
theorem propP_perm (mc : lld_condition_t → Bool)
    (l l' : List lld_condition_t) (hp : l.Perm l') :
    (∀ c ∈ l, ∃ d ∈ l, d.macroName = c.macroName ∧ mc d = true) ↔
    (∀ c ∈ l', ∃ d ∈ l', d.macroName = c.macroName ∧ mc d = true) := by
  constructor
  · intro h c hc
    rcases h c (hp.mem_iff.mpr hc) with ⟨d, hd, he, hm⟩
    exact ⟨d, hp.mem_iff.mp hd, he, hm⟩
  · intro h c hc
    rcases h c (hp.mem_iff.mp hc) with ⟨d, hd, he, hm⟩
    exact ⟨d, hp.mem_iff.mpr hd, he, hm⟩

/-- Claim C1: with the conditions sorted by macro (as the loader
guarantees for AND_OR), evaluation under AND_OR passes iff every
distinct macro among the conditions has at least one matching condition
in its group; and the outcome is unchanged by any reordering of the
conditions that keeps equal macros contiguous (in particular by
reordering conditions inside a macro group or reordering whole
groups). -/
theorem and_or_group_semantics (eng : RegexpEng) (jp_row : JsonRowView)
    (t : List zbx_lld_macro_path_t) (l : List lld_condition_t) (e : String)
    (hs : l.Sorted (fun a b => a.macroName ≤ b.macroName)) :
    (filter_evaluate_and_or eng jp_row t ⟨l, e, EvalType.andOr⟩ = true ↔
      ∀ c ∈ l, ∃ d ∈ l, d.macroName = c.macroName ∧
        filter_condition_match eng jp_row t d = true) ∧
    (∀ l' : List lld_condition_t, l'.Perm l → groupedMacros l' = true →
      filter_evaluate_and_or eng jp_row t ⟨l', e, EvalType.andOr⟩ =
        filter_evaluate_and_or eng jp_row t ⟨l, e, EvalType.andOr⟩) := by
  have hgl := grouped_of_sorted l hs
  have h1 : filter_evaluate_and_or eng jp_row t ⟨l, e, EvalType.andOr⟩ =
      specGroups (filter_condition_match eng jp_row t) l :=
    andOrLoop_none (filter_condition_match eng jp_row t) l
  constructor
  · rw [h1]
    exact specGroups_iff (filter_condition_match eng jp_row t) l hgl
  · intro l' hperm hgl'
    have h2 : filter_evaluate_and_or eng jp_row t ⟨l', e, EvalType.andOr⟩ =
        specGroups (filter_condition_match eng jp_row t) l' :=
      andOrLoop_none (filter_condition_match eng jp_row t) l'
    rw [h1, h2]
    have hiff := ((specGroups_iff (filter_condition_match eng jp_row t)
        l' hgl').trans
      (propP_perm (filter_condition_match eng jp_row t) l' l hperm)).trans
      (specGroups_iff (filter_condition_match eng jp_row t) l hgl).symm
    by_cases hA : specGroups (filter_condition_match eng jp_row t) l' = true
    · rw [hA, hiff.mp hA]
    · have hB := fun hb => hA (hiff.mpr hb)
      rw [Bool.not_eq_true] at hA
      rw [hA]
      cases hC : specGroups (filter_condition_match eng jp_row t) l with
      | false => rfl
      | true => exact absurd hC hB

/-- Claim C1, witness: the scenario with two macro groups, the first
group matching through its first condition and the second group
matching, applied through the theorem's iff. -/
theorem and_or_group_semantics_witness :
    filter_evaluate_and_or matchEng
      ⟨[("A", "r1"), ("B", "r3")], fun _ => none⟩ []
      ⟨[⟨1, "A", "r1", [], ConditionOperator.regexp⟩,
        ⟨2, "A", "r2", [], ConditionOperator.regexp⟩,
        ⟨3, "B", "r3", [], ConditionOperator.regexp⟩], "",
        EvalType.andOr⟩ = true :=
  ((and_or_group_semantics matchEng
      ⟨[("A", "r1"), ("B", "r3")], fun _ => none⟩ []
      [⟨1, "A", "r1", [], ConditionOperator.regexp⟩,
       ⟨2, "A", "r2", [], ConditionOperator.regexp⟩,
       ⟨3, "B", "r3", [], ConditionOperator.regexp⟩] ""
      (by
        have hAB : ("A" : String) ≤ "B" := le_of_not_lt (by
          rw [String.lt_iff_toList_lt]
          decide)
        refine List.sorted_cons.mpr ⟨?_, List.sorted_cons.mpr
          ⟨?_, List.sorted_singleton _⟩⟩
        · intro b hb
          rcases List.mem_cons.mp hb with rfl | hb'
          · exact le_refl _
          · rcases List.mem_cons.mp hb' with rfl | h
            · exact hAB
            · simp at h
        · intro b hb
          rcases List.mem_cons.mp hb with rfl | h
          · exact hAB
          · simp at h)).1).mpr (by decide)

/-- Claim C7: in every run that reaches error consolidation, the single
update-items statement is executed iff the run transitioned the rule
NOTSUPPORTED to NORMAL or the consolidated error text differs from the
previously persisted error; a run that changes neither issues no update
statement and applies no diff to the configuration cache. -/
theorem driver_persistence_minimality (inp : DriverIn) (row : RuleRow)
    (hrow : inp.ruleRow = some row)
    (hreach : (lld_process_discovery_rule inp).reached = true) :
    ((lld_process_discovery_rule inp).updateIssued = true ↔
      (driverStateChanged inp = true ∨
        (lld_process_discovery_rule inp).finalError ≠ some row.dbError)) ∧
    (driverStateChanged inp = false ∧
        (lld_process_discovery_rule inp).finalError = some row.dbError →
      (lld_process_discovery_rule inp).updateIssued = false ∧
      (lld_process_discovery_rule inp).diffApplied = false) := by
  cases h1 : inp.lockOk with
  | false => simp [lld_process_discovery_rule, h1] at hreach
  | true =>
      cases h2 : inp.ruleRow with
      | none =>
          simp [lld_process_discovery_rule, h1, h2, driverCleanExit] at hreach
      | some row' =>
          have hrr : row' = row := by
            rw [h2] at hrow
            exact Option.some.inj hrow
          subst hrr
          cases h3 : inp.condLoadRes with
          | error e =>
              constructor
              · simp [lld_process_discovery_rule, h1, h2, h3,
                  driverConsolidate, driverStateChanged]
              · simp [lld_process_discovery_rule, h1, h2, h3,
                  driverConsolidate, driverStateChanged]
          | ok conds =>
              cases h4 : inp.pathsRes with
              | error e =>
                  constructor
                  · simp [lld_process_discovery_rule, h1, h2, h3, h4,
                      driverConsolidate, driverStateChanged]
                  · simp [lld_process_discovery_rule, h1, h2, h3, h4,
                      driverConsolidate, driverStateChanged]
              | ok tbl =>
                  cases h5 : inp.rowsRes with
                  | error e =>
                      constructor
                      · simp [lld_process_discovery_rule, h1, h2, h3, h4, h5,
                          driverConsolidate, driverStateChanged]
                      · simp [lld_process_discovery_rule, h1, h2, h3, h4, h5,
                          driverConsolidate, driverStateChanged]
                  | ok rp =>
                      obtain ⟨rows, info⟩ := rp
                      cases h6 : inp.itemsOk with
                      | false =>
                          simp [lld_process_discovery_rule, h1, h2, h3, h4,
                            h5, h6, driverCleanExit] at hreach
                      | true =>
                          cases h7 : inp.triggersOk with
                          | false =>
                              simp [lld_process_discovery_rule, h1, h2, h3,
                                h4, h5, h6, h7, driverCleanExit] at hreach
                          | true =>
                              cases h8 : inp.graphsOk with
                              | false =>
                                  simp [lld_process_discovery_rule, h1, h2,
                                    h3, h4, h5, h6, h7, h8,
                                    driverCleanExit] at hreach
                              | true =>
                                  cases info with
                                  | none =>
                                      constructor
                                      · simp [lld_process_discovery_rule, h1,
                                          h2, h3, h4, h5, h6, h7, h8,
                                          driverConsolidate,
                                          driverStateChanged]
                                      · simp [lld_process_discovery_rule, h1,
                                          h2, h3, h4, h5, h6, h7, h8,
                                          driverConsolidate,
                                          driverStateChanged]
                                  | some i =>
                                      constructor
                                      · simp [lld_process_discovery_rule, h1,
                                          h2, h3, h4, h5, h6, h7, h8,
                                          driverConsolidate,
                                          driverStateChanged]
                                      · simp [lld_process_discovery_rule, h1,
                                          h2, h3, h4, h5, h6, h7, h8,
                                          driverConsolidate,
                                          driverStateChanged]

/-- Claim C7, witness: a fully successful run of a NORMAL rule whose
empty consolidated error differs from the previously persisted error
text issues the update statement. -/
theorem driver_persistence_witness :
    (lld_process_discovery_rule
      ⟨true, some ⟨1, "k", ItemState.normal, EvalType.andOr, "", "old", "30d"⟩,
        Except.ok [], Except.ok [], Except.ok ([], none),
        true, "", true, "", true, "", ""⟩).updateIssued = true :=
  ((driver_persistence_minimality
      ⟨true, some ⟨1, "k", ItemState.normal, EvalType.andOr, "", "old", "30d"⟩,
        Except.ok [], Except.ok [], Except.ok ([], none),
        true, "", true, "", true, "", ""⟩
      ⟨1, "k", ItemState.normal, EvalType.andOr, "", "old", "30d"⟩
      rfl rfl).1).mpr
    (Or.inr (by decide))
